import Mathlib

/-!
Verification development for the octra web client transaction engine
(src/hooks/use-wallet-data.ts, src/app/components/dashboard/send-dialog.tsx,
src/app/api/proxy/route.ts).

The TypeScript source is shallowly embedded: JavaScript numbers that hold
token amounts or timestamps are modelled as rationals, ledger nonces as
integers, strings as Lean strings, `undefined`-able values as `Option`.
JavaScript primitives used by the source (truthiness, `||`, `??`,
`Math.max`, `parseInt`, `parseFloat`, `String.prototype.includes`,
`split`, `toLowerCase`, `startsWith`) are given explicit executable
models below.  The signing primitive (tweetnacl) and the network are
external collaborators of the code under study and enter as oracle
parameters.
-/

/-- JavaScript `x || 0` on a possibly-undefined number: `undefined`, `0`
and `NaN` are falsy and give `0`, anything else passes through. -/
def jsOrZeroInt (o : Option Int) : Int :=
  match o with
  | none => 0
  | some x => if x = 0 then 0 else x

/-- JavaScript `a || b` where `a` is a possibly-undefined string: the empty
string and `undefined` are falsy. -/
def jsOrString (a : Option String) (b : String) : String :=
  match a with
  | none => b
  | some s => if s = "" then b else s

/-- JavaScript `Math.max(...xs)` on a spread list of numbers.  The source
only invokes it on non-empty lists (guarded by `length > 0`); on `[]` the
real value would be `-Infinity`, which we arbitrarily render as `0` since
that call never happens. -/
def jsMaxInt : List Int → Int
  | [] => 0
  | x :: xs => xs.foldl max x

/-- Boolean test that `pre` is a prefix of `l` (character lists). -/
def charPre : List Char → List Char → Bool
  | [], _ => true
  | _ :: _, [] => false
  | a :: as, b :: bs => a == b && charPre as bs

/-- Boolean substring test on character lists. -/
def charSub (needle : List Char) : List Char → Bool
  | [] => charPre needle []
  | c :: rest => charPre needle (c :: rest) || charSub needle rest

/-- JavaScript `s.includes(sub)`. -/
def jsIncludes (s sub : String) : Bool :=
  charSub sub.data s.data

/-- JavaScript `s.toLowerCase()` (ASCII case, which is all the source
compares against). -/
def jsToLowerCase (s : String) : String :=
  ⟨s.data.map Char.toLower⟩

/-- JavaScript `s.startsWith(p)`. -/
def jsStartsWith (s p : String) : Bool :=
  charPre p.data s.data

/-- Splitting a character list at every occurrence of a separator, JS
`split` style: no collapsing, an empty input yields one empty field. -/
def jsSplitAux (sep : Char) : List Char → List Char → List (List Char)
  | [], cur => [cur.reverse]
  | c :: cs, cur =>
    if c == sep then cur.reverse :: jsSplitAux sep cs []
    else jsSplitAux sep cs (c :: cur)

/-- JavaScript `s.split(sep)` for a one-character separator. -/
def jsSplit (s : String) (sep : Char) : List String :=
  (jsSplitAux sep s.data []).map (fun l => ⟨l⟩)

/-- Decimal value of a digit list, most significant first. -/
def digitsVal (l : List Char) : Nat :=
  l.foldl (fun a c => a * 10 + (c.toNat - 48)) 0

/-- Longest leading run of decimal digits. -/
def leadingDigits (l : List Char) : List Char :=
  l.takeWhile (·.isDigit)

/-- JavaScript `parseInt(s)` on the non-negative decimal strings the
ledger serves (leading digits are read, the rest ignored). -/
def jsParseInt (s : String) : ℚ :=
  (digitsVal (leadingDigits s.data) : ℚ)

/-- JavaScript `parseFloat(s)` on the non-negative decimal strings the
ledger serves: an optional fractional part after one dot. -/
def jsParseFloat (s : String) : ℚ :=
  let ip := leadingDigits s.data
  match s.data.drop ip.length with
  | '.' :: rest =>
    let fp := leadingDigits rest
    (digitsVal ip : ℚ) + (digitsVal fp : ℚ) / (10 : ℚ) ^ fp.length
  | _ => (digitsVal ip : ℚ)

/-! ## Data model (src/hooks/use-wallet-data.ts) -/

/-- The connected wallet from WalletContext. -/
structure Wallet where
  address : String
  privateKey : String
  deriving DecidableEq

/-- Response of the confirmed-state endpoint `/balance/{address}`. -/
structure BalanceData where
  balance : Option ℚ
  nonce : Option Int
  deriving DecidableEq

/-- One entry of `staged_transactions` as served by `/staging` — and also
the shape of the optimistic entry synthesized after a successful send
(which carries `amount` and no `amount_raw`). -/
structure StagedTx where
  from_ : String
  to_ : String
  amount : String
  amount_raw : Option String
  nonce : Int
  hash : String
  timestamp : ℚ
  deriving DecidableEq

/-- Response of the pending-pool endpoint `/staging`. -/
structure StagingData where
  staged_transactions : Option (List StagedTx)
  deriving DecidableEq

/-! ## Nonce Oracle: `getCombinedNonce` inside `useWalletBalance`
(src/hooks/use-wallet-data.ts lines 34-58). -/

/-- Direct embedding of `getCombinedNonce`.  `tx.nonce` is already a
number in the model, so the source coercion `Number(tx.nonce)` is the
identity.  Returns `none` exactly where the source returns `undefined`
(wallet or balance data missing and `balanceData?.nonce` undefined). -/
def getCombinedNonce (wallet : Option Wallet) (balanceData : Option BalanceData)
    (stagingData : Option StagingData) : Option Int :=
  match wallet, balanceData with
  | some w, some bd =>
    let baseNonce := bd.nonce.getD 0
    match stagingData.bind (·.staged_transactions) with
    | some txs =>
      let ourStagedTxs := txs.filter (fun tx => tx.from_ == w.address)
      if ourStagedTxs.length > 0 then
        some (max baseNonce (jsMaxInt (ourStagedTxs.map (·.nonce))))
      else
        some baseNonce
    | none => some baseNonce
  | _, _ => balanceData.bind (·.nonce)

/-- The `nonce` field returned by the `useWalletBalance` hook:
`getCombinedNonce() || 0`. -/
def useWalletBalance_nonce (wallet : Option Wallet) (balanceData : Option BalanceData)
    (stagingData : Option StagingData) : Int :=
  jsOrZeroInt (getCombinedNonce wallet balanceData stagingData)

/-! ## History Merger data (src/hooks/use-wallet-data.ts lines 62-139) -/

/-- One element of `recent_transactions` from `/address/{addr}?limit=20`. -/
structure TransactionReference where
  hash : String
  epoch : Option Int
  deriving DecidableEq

/-- The `parsed_tx` object served by `/tx/{hash}` (field `to` is rendered
`to_` because `to` is reserved in Lean). -/
structure ParsedTx where
  from_ : String
  to_ : String
  amount : String
  amount_raw : Option String
  nonce : Int
  timestamp : ℚ
  deriving DecidableEq

/-- Body of a `/tx/{hash}` response; `parsed_tx` can be absent, in which
case the record is skipped by the merger. -/
structure TxData where
  parsed_tx : Option ParsedTx
  deriving DecidableEq

/-- One element of the batched transaction-details fetch: the hash asked
for together with the response body. -/
structure TxDetailResult where
  hash : String
  data : TxData
  deriving DecidableEq

/-- Body of `/address/{addr}`. -/
structure AddressData where
  recent_transactions : Option (List TransactionReference)
  deriving DecidableEq

/-- Direction tag of a merged entry: the source strings "in" and "out". -/
inductive TxDirection where
  | inward
  | outward
  deriving DecidableEq

/-- The `ProcessedTransaction` interface of the source. -/
structure ProcessedTransaction where
  time : ℚ
  hash : String
  amount : ℚ
  to_ : String
  type : TxDirection
  nonce : Int
  epoch : Option Int
  ok : Bool
  deriving DecidableEq

/-- The `parseAmount` helper inside `processedTransactions`: strings with
a dot parse as floats, plain integer strings are micro-units divided by
1,000,000; the falsy guard maps the empty string to "0". -/
def parseAmount (amountRaw : String) : ℚ :=
  let amountStr := if amountRaw = "" then "0" else amountRaw
  if jsIncludes amountStr "." then jsParseFloat amountStr
  else jsParseInt amountStr / 1000000

/-- The entry pushed for a confirmed transaction (step a of the merger). -/
def confirmedEntry (walletAddress : String) (refs : List TransactionReference)
    (hash : String) (p : ParsedTx) : ProcessedTransaction :=
  let txRef := refs.find? (fun ref => ref.hash == hash)
  let isIncoming := p.to_ == walletAddress
  { time := p.timestamp * 1000,
    hash := hash,
    amount := parseAmount (jsOrString p.amount_raw p.amount),
    to_ := if isIncoming then p.from_ else p.to_,
    type := if isIncoming then TxDirection.inward else TxDirection.outward,
    ok := true,
    nonce := p.nonce,
    epoch := txRef.bind (·.epoch) }

/-- The entry pushed for a pending (staged) transaction (step b of the
merger): `ok = true` optimistically, never epoch-tagged. -/
def stagedEntryTx (walletAddress : String) (t : StagedTx) : ProcessedTransaction :=
  let isIncoming := t.to_ == walletAddress
  { time := t.timestamp * 1000,
    hash := t.hash,
    amount := parseAmount (jsOrString t.amount_raw t.amount),
    to_ := if isIncoming then t.from_ else t.to_,
    type := if isIncoming then TxDirection.inward else TxDirection.outward,
    ok := true,
    nonce := t.nonce,
    epoch := none }

/-- Step a of the merger: walk the fetched details left to right carrying
the accumulated output list and the `processedHashes` set (a list here);
records without `parsed_tx` and hashes already seen are skipped. -/
def processConfirmedAux (walletAddress : String) (refs : List TransactionReference) :
    List TxDetailResult → List ProcessedTransaction × List String →
    List ProcessedTransaction × List String
  | [], acc => acc
  | r :: rs, acc =>
    processConfirmedAux walletAddress refs rs
      (match r.data.parsed_tx with
       | none => acc
       | some p =>
         if acc.2.contains r.hash then acc
         else (acc.1 ++ [confirmedEntry walletAddress refs r.hash p], r.hash :: acc.2))

/-- The filter applied to `staged_transactions` in step b: authored by the
wallet, truthy hash, hash not already emitted by step a. -/
def stagedFilter (walletAddress : String) (processedHashes : List String)
    (t : StagedTx) : Bool :=
  t.from_ == walletAddress && t.hash != "" && !(processedHashes.contains t.hash)

/-- Steps a and b of the merger: the `finalTransactions` list before
sorting and capping. -/
def mergedTransactions (walletAddress : String)
    (transactionDetails : Option (List TxDetailResult))
    (recent : Option (List TransactionReference))
    (stagingData : Option StagingData) : List ProcessedTransaction :=
  let step1 :=
    match transactionDetails, recent with
    | some ds, some refs =>
      if 0 < ds.length ∧ 0 < refs.length then
        processConfirmedAux walletAddress refs ds ([], [])
      else ([], [])
    | _, _ => ([], [])
  match stagingData.bind (·.staged_transactions) with
  | some txs =>
    step1.1 ++ (txs.filter (stagedFilter walletAddress step1.2)).map
      (stagedEntryTx walletAddress)
  | none => step1.1

/-- Stable insertion for descending time order, the effect of the source
comparator `(a, b) => b.time.getTime() - a.time.getTime()` under the
stable Array.prototype.sort. -/
def insertByTimeDesc (e : ProcessedTransaction) :
    List ProcessedTransaction → List ProcessedTransaction
  | [] => [e]
  | x :: xs => if x.time ≤ e.time then e :: x :: xs else x :: insertByTimeDesc e xs

/-- Stable sort by time, newest first. -/
def sortByTimeDesc : List ProcessedTransaction → List ProcessedTransaction
  | [] => []
  | x :: xs => insertByTimeDesc x (sortByTimeDesc xs)

/-- The `processedTransactions` memo (lines 141-208): empty without a
wallet address, otherwise merge, sort newest first, cap at 50. -/
def processedTransactions (walletAddress : Option String)
    (transactionDetails : Option (List TxDetailResult))
    (recent : Option (List TransactionReference))
    (stagingData : Option StagingData) : List ProcessedTransaction :=
  match walletAddress with
  | none => []
  | some w =>
    if w = "" then []
    else (sortByTimeDesc (mergedTransactions w transactionDetails recent stagingData)).take 50

/-- The value returned by the `useTransactionHistory` hook. -/
structure HistoryView where
  history : List ProcessedTransaction
  isLoading : Bool
  error : Option String
  deriving DecidableEq

/-- The `useTransactionHistory` hook (lines 87-229) as a function of its
network inputs.  The address fetch either succeeds with a body or fails
with an error message; each per-hash detail fetch is an oracle whose
`none` results (individual failures) are silently dropped, so the details
fetcher itself never errors.  A failed address fetch whose message
contains "404" is converted to an empty-but-valid result. -/
def useTransactionHistory (wallet : Option Wallet) (stagingData : Option StagingData)
    (addressResult : Except String AddressData)
    (fetchTx : String → Option TxData)
    (addressLoading detailsLoading : Bool) : HistoryView :=
  let addressData : Option AddressData :=
    match addressResult with
    | .ok d => some d
    | .error _ => none
  let addressError : Option String :=
    match addressResult with
    | .ok _ => none
    | .error e => some e
  let transactionHashes : List String :=
    ((addressData.bind (·.recent_transactions)).getD []).map (·.hash)
  let transactionDetails : Option (List TxDetailResult) :=
    if 0 < transactionHashes.length ∧ wallet.isSome then
      some (transactionHashes.filterMap
        (fun h => (fetchTx h).map (fun d => ⟨h, d⟩)))
    else none
  let processed := processedTransactions (wallet.map (·.address))
    transactionDetails (addressData.bind (·.recent_transactions)) stagingData
  match addressError with
  | some msg =>
    if jsIncludes msg "404" then
      { history := processed, isLoading := false, error := none }
    else
      { history := processed, isLoading := addressLoading || detailsLoading,
        error := some msg }
  | none =>
    { history := processed, isLoading := addressLoading || detailsLoading,
      error := none }

/-! ## Concrete fixtures used by witness theorems -/

/-- Fixture wallet. -/
def wOct : Wallet := { address := "octw", privateKey := "k" }

/-- Fixture staged entry authored by `wOct` with nonce 9. -/
def stx9 : StagedTx :=
  { from_ := "octw", to_ := "a", amount := "1", amount_raw := none,
    nonce := 9, hash := "h1", timestamp := 0 }

/-- Fixture staged entry authored by `wOct` with nonce 4. -/
def stx4 : StagedTx :=
  { from_ := "octw", to_ := "b", amount := "1", amount_raw := none,
    nonce := 4, hash := "h2", timestamp := 0 }

/-- Fixture staged entry authored by another wallet, nonce 99. -/
def stxOther : StagedTx :=
  { from_ := "other", to_ := "c", amount := "1", amount_raw := none,
    nonce := 99, hash := "h3", timestamp := 0 }

/-- Fixture staged entry authored by `wOct` with nonce 3. -/
def stx3 : StagedTx :=
  { from_ := "octw", to_ := "a", amount := "1", amount_raw := none,
    nonce := 3, hash := "h1", timestamp := 0 }

/-- Fixture confirmed reference for hash h1 with epoch 2. -/
def refH1 : TransactionReference := { hash := "h1", epoch := some 2 }

/-- Fixture parsed confirmed transaction behind hash h1. -/
def parsedH1 : ParsedTx :=
  { from_ := "octw", to_ := "dest", amount := "1000000", amount_raw := none,
    nonce := 5, timestamp := 10 }

/-- Fixture detail-fetch result for hash h1. -/
def detailH1 : TxDetailResult := { hash := "h1", data := { parsed_tx := some parsedH1 } }

/-! ## Transaction Builder, sendTransaction and the batch scheduler
(src/hooks/use-wallet-data.ts lines 231-388,
src/app/components/dashboard/send-dialog.tsx lines 145-191) -/

/-- The `SendTransactionParams` interface (`_nonce` is the optional
pre-assigned nonce of the batch scheduler). -/
structure SendTransactionParams where
  to_ : String
  amount : ℚ
  _nonce : Option Int
  deriving DecidableEq

/-- The unsigned transaction object built at lines 271-278 (the recipient
field is literally spelled `to_` in the source as well).  `amount` is
`String(Math.floor(amount * 1_000_000))`. -/
structure Transaction where
  from_ : String
  to_ : String
  amount : String
  nonce : Int
  ou : String
  timestamp : ℚ
  deriving DecidableEq

/-- The transmissible envelope: the transaction spread together with the
base64 signature and public key produced by the black-box crypto layer. -/
structure SignedTransaction where
  tx : Transaction
  signature : String
  public_key : String
  deriving DecidableEq

/-- What the proxied `/send-tx` exchange can look like to the caller: a
non-ok HTTP response carrying an optional `error` field, an ok JSON
object body, an ok plain-string body, or a thrown exception (network
failure, abort on the 10s proxy timeout, malformed body). -/
inductive ProxyResponse where
  | httpError (errorMsg : Option String)
  | okJson (status : Option String) (tx_hash : Option String) (pool_info : Option String)
  | okString (s : String)
  | threw (msg : Option String)
  deriving DecidableEq

/-- The failure reasons of `sendTransaction`, one constructor per
`return` site of the source; each records the data the source formats
into its English/JSON error string. -/
inductive SendError where
  | walletNotConnected
  | failedWalletState
  | insufficientBalance (balance : ℚ) (amount : ℚ)
  | httpError (msg : Option String)
  | rejectedBody (resp : ProxyResponse)
  | exception (msg : Option String)
  deriving DecidableEq

/-- The `SendTransactionResult` interface. -/
structure SendTransactionResult where
  success : Bool
  txHash : Option String
  error : Option SendError
  responseTime : Option ℚ
  poolInfo : Option String
  deriving DecidableEq

/-- Everything observable about one `sendTransaction` call: the returned
result, the envelope given to the network (`none` when the call returned
before any network request), the optimistic entry handed to the staging
mutate (`none` unless the call succeeded), and the `revalidate` flag of
that mutate call. -/
structure SendOutcome where
  result : SendTransactionResult
  submitted : Option SignedTransaction
  staged : Option StagedTx
  stagedRevalidate : Option Bool
  deriving DecidableEq

/-- Ambient state and collaborators of a `sendTransaction` call: the
context wallet, the `nonce` and `balance` values read from
`useWalletBalance` (the hook nonce is always a number), the signing black
box `sign`, the encoded public key, the network oracle `net`, the two
clock samples (build time with jitter, mutate time) and the measured
response time. -/
structure SendEnv where
  wallet : Option Wallet
  hookNonce : Int
  balance : Option ℚ
  sign : Transaction → String
  publicKeyB64 : String
  net : SignedTransaction → ProxyResponse
  nowSec : ℚ
  jitter : ℚ
  mutateNowSec : ℚ
  responseSec : ℚ

/-- The optimistic pending-pool entry built inside the staging mutate
(lines 328-335): note its nonce is `currentNonce + 1`, not the nonce of
the submitted envelope. -/
def newStagedTx (w : Wallet) (p : SendTransactionParams) (currentNonce : Int)
    (txHash : String) (now : ℚ) : StagedTx :=
  { from_ := w.address,
    to_ := p.to_,
    amount := toString ⌊p.amount * 1000000⌋,
    amount_raw := none,
    nonce := currentNonce + 1,
    hash := txHash,
    timestamp := now }

/-- The staging-cache mutate callback (lines 325-347): prepend the new
entry to whatever `staged_transactions` the cache currently holds. -/
def stagingMutateUpdater (newTx : StagedTx) (currentData : Option StagingData) :
    StagingData :=
  { staged_transactions :=
      some (newTx :: (currentData.bind (·.staged_transactions)).getD []) }

/-- The success return (lines 318-365): result carries the hash, the
response time and `pool_info`; the staging mutate receives the
synthesized entry with `revalidate: false`. -/
def sendSuccess (env : SendEnv) (w : Wallet) (currentNonce : Int)
    (p : SendTransactionParams) (stx : SignedTransaction) (txHash : String)
    (pool_info : Option String) : SendOutcome :=
  { result :=
      { success := true, txHash := some txHash, error := none,
        responseTime := some env.responseSec, poolInfo := pool_info },
    submitted := some stx,
    staged := some (newStagedTx w p currentNonce txHash env.mutateNowSec),
    stagedRevalidate := some false }

/-- The rejection return (lines 366-373): `JSON.stringify(result)` as the
error, no cache mutation. -/
def sendRejected (env : SendEnv) (stx : SignedTransaction) (resp : ProxyResponse) :
    SendOutcome :=
  { result :=
      { success := false, txHash := none,
        error := some (SendError.rejectedBody resp),
        responseTime := some env.responseSec, poolInfo := none },
    submitted := some stx, staged := none, stagedRevalidate := none }

/-- Handling of the network response (lines 302-373): a non-ok response
returns the upstream error text; an `accepted` JSON body with a truthy
`tx_hash` succeeds; a string body lowercasing to an "ok" prefix succeeds
with the last space-separated token as hash if that token is truthy; any
other shape is a rejection; a throw lands in the catch (lines 375-381). -/
def sendTransactionNet (env : SendEnv) (w : Wallet) (currentNonce : Int)
    (p : SendTransactionParams) (stx : SignedTransaction) :
    ProxyResponse → SendOutcome
  | ProxyResponse.httpError msg =>
    { result :=
        { success := false, txHash := none,
          error := some (SendError.httpError msg),
          responseTime := some env.responseSec, poolInfo := none },
      submitted := some stx, staged := none, stagedRevalidate := none }
  | ProxyResponse.okJson status tx_hash pool_info =>
    if status == some "accepted" then
      match tx_hash with
      | some h =>
        if h ≠ "" then sendSuccess env w currentNonce p stx h pool_info
        else sendRejected env stx (ProxyResponse.okJson status tx_hash pool_info)
      | none => sendRejected env stx (ProxyResponse.okJson status tx_hash pool_info)
    else sendRejected env stx (ProxyResponse.okJson status tx_hash pool_info)
  | ProxyResponse.okString str =>
    if jsStartsWith (jsToLowerCase str) "ok" then
      match (jsSplit str ' ').getLast? with
      | some h =>
        if h ≠ "" then sendSuccess env w currentNonce p stx h none
        else sendRejected env stx (ProxyResponse.okString str)
      | none => sendRejected env stx (ProxyResponse.okString str)
    else sendRejected env stx (ProxyResponse.okString str)
  | ProxyResponse.threw msg =>
    { result :=
        { success := false, txHash := none,
          error := some (SendError.exception msg), responseTime := none,
          poolInfo := none },
      submitted := some stx, staged := none, stagedRevalidate := none }

/-- The `sendTransaction` closure (lines 252-382).  `currentNonce` is
`_nonce ?? nonce ?? 0`; the envelope nonce is `_nonce ? _nonce :
currentNonce + 1`, a truthiness test under which `_nonce = 0` falls back;
the guards before the network call mirror lines 253-265. -/
def sendTransaction (env : SendEnv) (p : SendTransactionParams) : SendOutcome :=
  match env.wallet with
  | none =>
    { result :=
        { success := false, txHash := none,
          error := some SendError.walletNotConnected, responseTime := none,
          poolInfo := none },
      submitted := none, staged := none, stagedRevalidate := none }
  | some w =>
    let currentNonce := p._nonce.getD env.hookNonce
    match env.balance with
    | none =>
      { result :=
          { success := false, txHash := none,
            error := some SendError.failedWalletState, responseTime := none,
            poolInfo := none },
        submitted := none, staged := none, stagedRevalidate := none }
    | some balance =>
      if balance < p.amount then
        { result :=
            { success := false, txHash := none,
              error := some (SendError.insufficientBalance balance p.amount),
              responseTime := none, poolInfo := none },
          submitted := none, staged := none, stagedRevalidate := none }
      else
        let transaction : Transaction :=
          { from_ := w.address,
            to_ := p.to_,
            amount := toString ⌊p.amount * 1000000⌋,
            nonce :=
              match p._nonce with
              | some v => if v ≠ 0 then v else currentNonce + 1
              | none => currentNonce + 1,
            ou := if p.amount < 1000 then "1" else "3",
            timestamp := env.nowSec + env.jitter }
        let stx : SignedTransaction :=
          { tx := transaction, signature := env.sign transaction,
            public_key := env.publicKeyB64 }
        sendTransactionNet env w currentNonce p stx (env.net stx)

/-- A recipient row of the send dialog. -/
structure Recipient where
  address : String
  amount : String
  deriving DecidableEq

/-- The chunking loop of `handleConfirm`: `recipients.slice(i, i + 5)`
for `i = 0, 5, 10, ...` (BATCH_SIZE = 5), original order preserved. -/
def chunk5 {α : Type} : List α → List (List α)
  | [] => []
  | [a] => [[a]]
  | [a, b] => [[a, b]]
  | [a, b, c] => [[a, b, c]]
  | [a, b, c, d] => [[a, b, c, d]]
  | a :: b :: c :: d :: e :: rest => [a, b, c, d, e] :: chunk5 rest

/-- One batch of `handleConfirm` (lines 163-179): every member is sent
with the pre-computed nonce `startNonce + overallIndex + batchIndex`, and
since `sendTransaction` never rejects, `Promise.allSettled` delivers
exactly the per-member results which are then zipped back onto the batch
in order. -/
def runBatch (env : SendEnv) (startNonce : Int) (overallIndex : Nat)
    (batch : List Recipient) : List (Recipient × SendOutcome) :=
  batch.mapIdx (fun batchIndex r =>
    (r, sendTransaction env
      { to_ := r.address, amount := jsParseFloat r.amount,
        _nonce := some (startNonce + ((overallIndex + batchIndex : Nat) : Int)) }))

/-- The sequential loop over batches, accumulating `overallIndex`. -/
def runBatches (env : SendEnv) (startNonce : Int) :
    List (List Recipient) → Nat → List (Recipient × SendOutcome)
  | [], _ => []
  | batch :: rest, overallIndex =>
    runBatch env startNonce overallIndex batch ++
      runBatches env startNonce rest (overallIndex + batch.length)

/-- `handleConfirm` (lines 145-191): `startNonce = nonce + 1` (the hook
nonce is always a number, so the `undefined` branch of line 148 is dead),
chunks of five processed sequentially, all per-recipient results
collected in original order. -/
def handleConfirm (env : SendEnv) (recipients : List Recipient) :
    List (Recipient × SendOutcome) :=
  runBatches env (env.hookNonce + 1) (chunk5 recipients) 0

/-- Reference unchunked scheduler used to state and prove properties of
`handleConfirm`: item `j` of `l` is sent with nonce `startNonce + i + j`. -/
def runItemsFrom (env : SendEnv) (startNonce : Int) :
    Nat → List Recipient → List (Recipient × SendOutcome)
  | _, [] => []
  | i, r :: rs =>
    (r, sendTransaction env
      { to_ := r.address, amount := jsParseFloat r.amount,
        _nonce := some (startNonce + (i : Int)) }) ::
      runItemsFrom env startNonce (i + 1) rs

/-- Fixture environment for witnesses: wallet `wOct`, hook nonce 10,
balance 100, a network oracle that always accepts with hash "hx". -/
def wEnv : SendEnv :=
  { wallet := some wOct, hookNonce := 10, balance := some 100,
    sign := fun _ => "sig", publicKeyB64 := "pub",
    net := fun _ => ProxyResponse.okJson (some "accepted") (some "hx") none,
    nowSec := 0, jitter := 0, mutateNowSec := 0, responseSec := 1 }

/-- Fixture recipient row with amount string "1". -/
def rcpt1 : Recipient := { address := "octr", amount := "1" }

/-! ## Theorems -/

theorem foldl_max_bounds (xs : List Int) : ∀ x : Int,
    x ≤ xs.foldl max x ∧ ∀ y ∈ xs, y ≤ xs.foldl max x := by
  induction xs with
  | nil => intro x; simp
  | cons y ys ih =>
    intro x
    have h := ih (max x y)
    refine ⟨le_trans (le_max_left x y) h.1, ?_⟩
    intro z hz
    rcases List.mem_cons.mp hz with rfl | hz
    · exact le_trans (le_max_right x z) h.1
    · exact h.2 z hz

theorem foldl_max_mem (xs : List Int) : ∀ x : Int, xs.foldl max x ∈ x :: xs := by
  induction xs with
  | nil => intro x; simp
  | cons y ys ih =>
    intro x
    have h := ih (max x y)
    rw [List.foldl_cons]
    rcases List.mem_cons.mp h with he | hm
    · rw [he]
      rcases max_choice x y with hc | hc <;> rw [hc]
      · exact List.mem_cons_self _ _
      · exact List.mem_cons_of_mem _ (List.mem_cons_self _ _)
    · exact List.mem_cons_of_mem _ (List.mem_cons_of_mem _ hm)

/-- `jsMaxInt` of a non-empty list is its maximum: every element is below
it and it is attained. -/
theorem jsMaxInt_spec (x : Int) (xs : List Int) :
    (∀ y ∈ x :: xs, y ≤ jsMaxInt (x :: xs)) ∧ jsMaxInt (x :: xs) ∈ x :: xs := by
  unfold jsMaxInt
  refine ⟨?_, foldl_max_mem xs x⟩
  intro y hy
  rcases List.mem_cons.mp hy with rfl | hm
  · exact (foldl_max_bounds xs y).1
  · exact (foldl_max_bounds xs x).2 y hm


/-- C3: with a present wallet and confirmed snapshot carrying nonce `c`
and a present pending pool, the effective nonce is `c` when no pending
entry is authored by the wallet, otherwise `max c p` where `p` is the
greatest nonce among the wallet-authored pending entries; in all cases it
is defined and at least `c`.  `getCombinedNonce` is a plain function of
the two snapshots, so determinism and purity hold by construction. -/
theorem getCombinedNonce_effective (w : Wallet) (b : Option ℚ)
    (c : Int) (txs : List StagedTx) :
    (txs.filter (fun tx => tx.from_ == w.address) = [] →
      getCombinedNonce (some w) (some { balance := b, nonce := some c })
        (some { staged_transactions := some txs }) = some c) ∧
    (∀ t0 ts, txs.filter (fun tx => tx.from_ == w.address) = t0 :: ts →
      ∃ p : Int,
        getCombinedNonce (some w) (some { balance := b, nonce := some c })
          (some { staged_transactions := some txs }) = some (max c p) ∧
        (∀ t ∈ t0 :: ts, t.nonce ≤ p) ∧ p ∈ (t0 :: ts).map (·.nonce)) ∧
    (∃ n : Int,
      getCombinedNonce (some w) (some { balance := b, nonce := some c })
        (some { staged_transactions := some txs }) = some n ∧ c ≤ n) := by
  refine ⟨?_, ?_, ?_⟩
  · intro hf
    simp [getCombinedNonce, hf]
  · intro t0 ts hf
    refine ⟨jsMaxInt ((t0 :: ts).map (·.nonce)), ?_, ?_, ?_⟩
    · simp [getCombinedNonce, hf]
    · intro t htm
      have hb := (jsMaxInt_spec (t0.nonce) (ts.map (·.nonce))).1 t.nonce
      apply hb
      rcases List.mem_cons.mp htm with rfl | hmm
      · exact List.mem_cons_self _ _
      · exact List.mem_cons_of_mem _ (List.mem_map_of_mem _ hmm)
    · have hm := (jsMaxInt_spec (t0.nonce) (ts.map (·.nonce))).2
      simpa using hm
  · cases hf : txs.filter (fun tx => tx.from_ == w.address) with
    | nil =>
      exact ⟨c, by simp [getCombinedNonce, hf], le_refl c⟩
    | cons t0 ts =>
      refine ⟨max c (jsMaxInt ((t0 :: ts).map (·.nonce))), ?_, le_max_left _ _⟩
      simp [getCombinedNonce, hf]

/-- C7: when the confirmed snapshot is present but carries no nonce, the
oracle treats the missing value as `0`: it still returns a number (the
function has no failure outcome), that number is at least `0`, and the
nonce published by the `useWalletBalance` hook equals it, so callers see
a numeric floor of `0`. -/
theorem getCombinedNonce_missing_nonce (w : Wallet) (b : Option ℚ)
    (sd : Option StagingData) :
    ∃ n : Int,
      getCombinedNonce (some w) (some { balance := b, nonce := none }) sd = some n ∧
      0 ≤ n ∧
      useWalletBalance_nonce (some w) (some { balance := b, nonce := none }) sd = n := by
  have hval : ∀ n : Int, 0 ≤ n →
      ∀ h : getCombinedNonce (some w) (some { balance := b, nonce := none }) sd = some n,
      useWalletBalance_nonce (some w) (some { balance := b, nonce := none }) sd = n := by
    intro n hn h
    simp only [useWalletBalance_nonce, h, jsOrZeroInt]
    split <;> omega
  rcases sd with _ | ⟨_ | txs⟩
  · exact ⟨0, by simp [getCombinedNonce], le_refl 0, hval 0 (le_refl 0) (by simp [getCombinedNonce])⟩
  · exact ⟨0, by simp [getCombinedNonce], le_refl 0, hval 0 (le_refl 0) (by simp [getCombinedNonce])⟩
  · cases hf : txs.filter (fun tx => tx.from_ == w.address) with
    | nil =>
      exact ⟨0, by simp [getCombinedNonce, hf], le_refl 0,
        hval 0 (le_refl 0) (by simp [getCombinedNonce, hf])⟩
    | cons t0 ts =>
      refine ⟨max 0 (jsMaxInt ((t0 :: ts).map (·.nonce))), ?_, le_max_left _ _, ?_⟩
      · simp [getCombinedNonce, hf]
      · exact hval _ (le_max_left _ _) (by simp [getCombinedNonce, hf])

/-- Witness for C3 at a concrete input: wallet `octw`, confirmed nonce 7,
pool entries authored by the wallet with nonces 9 and 4 plus a foreign
entry with nonce 99; the oracle reports `max 7 9 = 9`. -/
theorem getCombinedNonce_effective_witness :
    ([stx9, stx4, stxOther].filter (fun tx => tx.from_ == wOct.address) = [stx9, stx4]) ∧
    getCombinedNonce (some wOct) (some { balance := some 5, nonce := some 7 })
      (some { staged_transactions := some [stx9, stx4, stxOther] }) = some 9 := by
  refine ⟨by decide, ?_⟩
  obtain ⟨p, hp, hub, hmem⟩ :=
    (getCombinedNonce_effective wOct (some 5) 7 [stx9, stx4, stxOther]).2.1
      stx9 [stx4] (by decide)
  have hp9 : p = 9 := by
    have h1 := hub stx9 (List.mem_cons_self _ _)
    have h2 := hmem
    simp [stx9, stx4] at h1 h2
    omega
  rw [hp, hp9]
  rfl

/-- Witness for C7 at a concrete input: confirmed snapshot with no nonce,
one own staged entry with nonce 3; the published nonce is `3 ≥ 0`. -/
theorem getCombinedNonce_missing_nonce_witness :
    ∃ n : Int,
      getCombinedNonce (some wOct) (some { balance := some 5, nonce := none })
        (some { staged_transactions := some [stx3] }) = some n ∧
      0 ≤ n ∧
      useWalletBalance_nonce (some wOct) (some { balance := some 5, nonce := none })
        (some { staged_transactions := some [stx3] }) = n :=
  getCombinedNonce_missing_nonce wOct (some 5) (some { staged_transactions := some [stx3] })

theorem insertByTimeDesc_perm (e : ProcessedTransaction) (l : List ProcessedTransaction) :
    (insertByTimeDesc e l).Perm (e :: l) := by
  induction l with
  | nil => simp [insertByTimeDesc]
  | cons x xs ih =>
    simp only [insertByTimeDesc]
    split
    · exact List.Perm.refl _
    · exact (ih.cons x).trans (List.Perm.swap e x xs)

theorem sortByTimeDesc_perm (l : List ProcessedTransaction) :
    (sortByTimeDesc l).Perm l := by
  induction l with
  | nil => simp [sortByTimeDesc]
  | cons x xs ih => exact (insertByTimeDesc_perm x (sortByTimeDesc xs)).trans (ih.cons x)

theorem processConfirmedAux_contains (w : String) (refs : List TransactionReference)
    (ds : List TxDetailResult) : ∀ (acc : List ProcessedTransaction × List String) (h : String),
    (acc.2.contains h = true ∨ ∃ r ∈ ds, r.hash = h ∧ (r.data.parsed_tx).isSome = true) →
    (processConfirmedAux w refs ds acc).2.contains h = true := by
  induction ds with
  | nil =>
    intro acc h hcase
    rcases hcase with hc | ⟨r, hr, _⟩
    · simpa [processConfirmedAux] using hc
    · exact absurd hr (List.not_mem_nil r)
  | cons r rs ih =>
    intro acc h hcase
    simp only [processConfirmedAux]
    cases hp : r.data.parsed_tx with
    | none =>
      apply ih
      rcases hcase with hc | ⟨r0, hr0, hh0, hs0⟩
      · exact Or.inl hc
      · rcases List.mem_cons.mp hr0 with rfl | hmm
        · rw [hp] at hs0; exact absurd hs0 (by simp)
        · exact Or.inr ⟨r0, hmm, hh0, hs0⟩
    | some p =>
      cases hc : acc.2.contains r.hash with
      | true =>
        simp only [hc, if_true]
        apply ih
        rcases hcase with hc0 | ⟨r0, hr0, hh0, hs0⟩
        · exact Or.inl hc0
        · rcases List.mem_cons.mp hr0 with rfl | hmm
          · exact Or.inl (hh0 ▸ hc)
          · exact Or.inr ⟨r0, hmm, hh0, hs0⟩
      | false =>
        simp only [hc, if_false, Bool.false_eq_true]
        apply ih
        rcases hcase with hc0 | ⟨r0, hr0, hh0, hs0⟩
        · refine Or.inl ?_
          have hm : h ∈ acc.2 := by simpa using hc0
          simp [List.contains_cons]
          exact Or.inr hm
        · rcases List.mem_cons.mp hr0 with rfl | hmm
          · refine Or.inl ?_
            simp [List.contains_cons]
            exact Or.inl hh0.symm
          · exact Or.inr ⟨r0, hmm, hh0, hs0⟩

theorem processConfirmedAux_count (w : String) (refs : List TransactionReference)
    (ds : List TxDetailResult) : ∀ (acc : List ProcessedTransaction × List String),
    (∀ x : String, List.countP (fun e => e.hash == x) acc.1 =
      (if acc.2.contains x = true then 1 else 0)) →
    ∀ x : String, List.countP (fun e => e.hash == x) (processConfirmedAux w refs ds acc).1 =
      (if (processConfirmedAux w refs ds acc).2.contains x = true then 1 else 0) := by
  induction ds with
  | nil => intro acc hinv x; simpa [processConfirmedAux] using hinv x
  | cons r rs ih =>
    intro acc hinv x
    cases hp : r.data.parsed_tx with
    | none => simp only [processConfirmedAux, hp]; exact ih acc hinv x
    | some p =>
      simp only [processConfirmedAux, hp]
      cases hc : acc.2.contains r.hash with
      | true => simp only [hc, if_true]; exact ih acc hinv x
      | false =>
        simp only [hc, if_false, Bool.false_eq_true]
        apply ih
        intro y
        rw [List.countP_append, hinv y]
        by_cases hy : y = r.hash
        · subst hy
          have hnm : r.hash ∉ acc.2 := by simpa using hc
          simp [List.contains_cons, hc, confirmedEntry, List.countP_cons, hnm]
        · have h1 : ((confirmedEntry w refs r.hash p).hash == y) = false := by
            simp [confirmedEntry]
            exact fun hcc => absurd hcc.symm hy
          have h2 : ((r.hash :: acc.2).contains y) = acc.2.contains y := by
            simp [List.contains_cons]
            intro hcc
            exact absurd hcc hy
          rw [h2]
          simp [List.countP_cons, h1]

theorem processConfirmedAux_mem (w : String) (refs : List TransactionReference)
    (ds : List TxDetailResult) : ∀ (acc : List ProcessedTransaction × List String)
    (e : ProcessedTransaction), e ∈ (processConfirmedAux w refs ds acc).1 →
    e ∈ acc.1 ∨ ∃ r ∈ ds, ∃ p, r.data.parsed_tx = some p ∧
      e = confirmedEntry w refs r.hash p := by
  induction ds with
  | nil =>
    intro acc e he
    exact Or.inl (by simpa [processConfirmedAux] using he)
  | cons r rs ih =>
    intro acc e he
    simp only [processConfirmedAux] at he
    cases hp : r.data.parsed_tx with
    | none =>
      rw [hp] at he
      rcases ih acc e he with h1 | ⟨r0, hr0, p0, hp0, he0⟩
      · exact Or.inl h1
      · exact Or.inr ⟨r0, List.mem_cons_of_mem _ hr0, p0, hp0, he0⟩
    | some p =>
      rw [hp] at he
      cases hc : acc.2.contains r.hash with
      | true =>
        rw [hc] at he; simp only [if_true] at he
        rcases ih acc e he with h1 | ⟨r0, hr0, p0, hp0, he0⟩
        · exact Or.inl h1
        · exact Or.inr ⟨r0, List.mem_cons_of_mem _ hr0, p0, hp0, he0⟩
      | false =>
        rw [hc] at he; simp only [Bool.false_eq_true, if_false] at he
        rcases ih _ e he with h1 | ⟨r0, hr0, p0, hp0, he0⟩
        · rcases List.mem_append.mp h1 with h2 | h2
          · exact Or.inl h2
          · refine Or.inr ⟨r, List.mem_cons_self _ _, p, hp, ?_⟩
            simpa using h2
        · exact Or.inr ⟨r0, List.mem_cons_of_mem _ hr0, p0, hp0, he0⟩

/-- C4: for a hash `h` present both among the successfully fetched
confirmed details (with a parsed body) and among the pending-pool entries
authored by the wallet, the merged `finalTransactions` list emits exactly
one entry carrying `h`; the sorted and capped history therefore carries
at most one, and any entry of the history carrying `h` is the one built
from a confirmed record (confirmed records are processed first and their
hashes bar the pending copy from step b). -/
theorem history_dedup_confirmed_precedence
    (w h : String) (hw : w ≠ "")
    (ds : List TxDetailResult) (refs : List TransactionReference)
    (txs : List StagedTx) (hds : 0 < ds.length) (hrefs : 0 < refs.length)
    (hconf : ∃ r ∈ ds, r.hash = h ∧ (r.data.parsed_tx).isSome = true)
    (_hpend : ∃ t ∈ txs, t.from_ = w ∧ t.hash = h) :
    List.countP (fun e => e.hash == h)
      (mergedTransactions w (some ds) (some refs)
        (some { staged_transactions := some txs })) = 1 ∧
    List.countP (fun e => e.hash == h)
      (processedTransactions (some w) (some ds) (some refs)
        (some { staged_transactions := some txs })) ≤ 1 ∧
    ∀ e ∈ processedTransactions (some w) (some ds) (some refs)
        (some { staged_transactions := some txs }),
      e.hash = h → ∃ r ∈ ds, ∃ p, r.data.parsed_tx = some p ∧ r.hash = h ∧
        e = confirmedEntry w refs r.hash p := by
  have hinv0 : ∀ x : String,
      List.countP (fun e => e.hash == x)
        (([], []) : List ProcessedTransaction × List String).1 =
      (if (([], []) : List ProcessedTransaction × List String).2.contains x = true
        then 1 else 0) := by
    intro x; simp
  have hcount := processConfirmedAux_count w refs ds ([], []) hinv0 h
  have hcontains := processConfirmedAux_contains w refs ds ([], []) h (Or.inr hconf)
  have hmerged : mergedTransactions w (some ds) (some refs)
      (some { staged_transactions := some txs }) =
      (processConfirmedAux w refs ds ([], [])).1 ++
        (txs.filter (stagedFilter w (processConfirmedAux w refs ds ([], [])).2)).map
          (stagedEntryTx w) := by
    simp [mergedTransactions, hds, hrefs]
  have hstaged : ∀ e ∈ (txs.filter
        (stagedFilter w (processConfirmedAux w refs ds ([], [])).2)).map
        (stagedEntryTx w), (e.hash == h) = false := by
    intro e he
    rcases List.mem_map.mp he with ⟨t, ht, rfl⟩
    have hf := (List.mem_filter.mp ht).2
    simp only [stagedFilter, Bool.and_eq_true, bne_iff_ne, Bool.not_eq_true] at hf
    have hnm : t.hash ∉ (processConfirmedAux w refs ds ([], [])).2 := by
      intro hmem
      have hcmem : (processConfirmedAux w refs ds ([], [])).2.contains t.hash = true := by
        simpa using hmem
      rw [hcmem] at hf
      simp at hf
    have hne : t.hash ≠ h := by
      intro hEq
      exact hnm (hEq ▸ (by simpa using hcontains))
    simp [stagedEntryTx]
    exact hne
  have hcnt1 : List.countP (fun e => e.hash == h)
      (processConfirmedAux w refs ds ([], [])).1 = 1 := by
    rw [hcount, hcontains]; rfl
  have hcnt0 : List.countP (fun e => e.hash == h)
      ((txs.filter (stagedFilter w (processConfirmedAux w refs ds ([], [])).2)).map
        (stagedEntryTx w)) = 0 := by
    apply List.countP_eq_zero.mpr
    intro e he
    simp [hstaged e he]
  have hmc : List.countP (fun e => e.hash == h)
      (mergedTransactions w (some ds) (some refs)
        (some { staged_transactions := some txs })) = 1 := by
    rw [hmerged, List.countP_append, hcnt1, hcnt0]
  have hproc : processedTransactions (some w) (some ds) (some refs)
      (some { staged_transactions := some txs }) =
      (sortByTimeDesc (mergedTransactions w (some ds) (some refs)
        (some { staged_transactions := some txs }))).take 50 := by
    simp [processedTransactions, hw]
  have hsortc : List.countP (fun e => e.hash == h)
      (sortByTimeDesc (mergedTransactions w (some ds) (some refs)
        (some { staged_transactions := some txs }))) = 1 := by
    rw [(sortByTimeDesc_perm _).countP_eq]; exact hmc
  refine ⟨hmc, ?_, ?_⟩
  · rw [hproc]
    calc List.countP (fun e => e.hash == h) ((sortByTimeDesc _).take 50)
        ≤ List.countP (fun e => e.hash == h) (sortByTimeDesc _) :=
          (List.take_sublist _ _).countP_le _
      _ = 1 := hsortc
  · intro e he hh
    rw [hproc] at he
    have he2 : e ∈ sortByTimeDesc (mergedTransactions w (some ds) (some refs)
        (some { staged_transactions := some txs })) :=
      (List.take_sublist _ _).mem he
    have he3 := (sortByTimeDesc_perm _).mem_iff.mp he2
    rw [hmerged] at he3
    rcases List.mem_append.mp he3 with h4 | h4
    · rcases processConfirmedAux_mem w refs ds ([], []) e h4 with h5 | ⟨r, hr, p, hp, rfl⟩
      · exact absurd h5 (List.not_mem_nil e)
      · have hrh : r.hash = h := by
          simpa [confirmedEntry] using hh
        exact ⟨r, hr, p, hp, hrh, rfl⟩
    · have := hstaged e h4
      rw [hh] at this
      simp at this

/-- C5: when the address-history fetch fails with a message containing
"404" and the pool holds two entries authored by this wallet, the hook
returns no error, reports not loading, and the history is exactly the two
pending entries (as merged entries, newest first). -/
theorem history_404_returns_pending
    (w : Wallet) (msg : String) (e1 e2 : StagedTx)
    (fetchTx : String → Option TxData) (l1 l2 : Bool)
    (hw : w.address ≠ "") (h404 : jsIncludes msg "404" = true)
    (h1f : e1.from_ = w.address) (h2f : e2.from_ = w.address)
    (h1h : e1.hash ≠ "") (h2h : e2.hash ≠ "") :
    (useTransactionHistory (some w) (some { staged_transactions := some [e1, e2] })
      (Except.error msg) fetchTx l1 l2).error = none ∧
    (useTransactionHistory (some w) (some { staged_transactions := some [e1, e2] })
      (Except.error msg) fetchTx l1 l2).isLoading = false ∧
    (useTransactionHistory (some w) (some { staged_transactions := some [e1, e2] })
      (Except.error msg) fetchTx l1 l2).history.Perm
      [stagedEntryTx w.address e1, stagedEntryTx w.address e2] := by
  have hfil : [e1, e2].filter (stagedFilter w.address []) = [e1, e2] := by
    have q1 : stagedFilter w.address [] e1 = true := by
      simp [stagedFilter, h1f, h1h]
    have q2 : stagedFilter w.address [] e2 = true := by
      simp [stagedFilter, h2f, h2h]
    simp [List.filter, q1, q2]
  have hmerged : mergedTransactions w.address none none
      (some { staged_transactions := some [e1, e2] }) =
      [stagedEntryTx w.address e1, stagedEntryTx w.address e2] := by
    simp [mergedTransactions, hfil]
  have hview : useTransactionHistory (some w)
      (some { staged_transactions := some [e1, e2] })
      (Except.error msg) fetchTx l1 l2 =
      { history := processedTransactions (some w.address) none none
          (some { staged_transactions := some [e1, e2] }),
        isLoading := false, error := none } := by
    simp [useTransactionHistory, h404]
  have hperm : (processedTransactions (some w.address) none none
      (some { staged_transactions := some [e1, e2] })).Perm
      [stagedEntryTx w.address e1, stagedEntryTx w.address e2] := by
    have hp1 : processedTransactions (some w.address) none none
        (some { staged_transactions := some [e1, e2] }) =
        (sortByTimeDesc (mergedTransactions w.address none none
          (some { staged_transactions := some [e1, e2] }))).take 50 := by
      simp [processedTransactions, hw]
    rw [hp1, hmerged]
    have hlen : (sortByTimeDesc
        [stagedEntryTx w.address e1, stagedEntryTx w.address e2]).length = 2 := by
      rw [(sortByTimeDesc_perm _).length_eq]; rfl
    rw [List.take_of_length_le (by rw [hlen]; omega)]
    exact sortByTimeDesc_perm _
  rw [hview]
  exact ⟨rfl, rfl, hperm⟩

/-- Witness for C4 at a concrete input: hash h1 is confirmed (fetched
detail with a parsed body) and also pending (entry `stx3`); the merged
list carries it exactly once and the history entry for it is the
confirmed one. -/
theorem history_dedup_confirmed_precedence_witness :
    (("octw" : String) ≠ "" ∧ 0 < ([detailH1] : List TxDetailResult).length ∧
      0 < ([refH1] : List TransactionReference).length ∧
      (∃ r ∈ [detailH1], r.hash = "h1" ∧ (r.data.parsed_tx).isSome = true) ∧
      (∃ t ∈ [stx3], t.from_ = "octw" ∧ t.hash = "h1")) ∧
    (List.countP (fun e => e.hash == "h1")
      (mergedTransactions "octw" (some [detailH1]) (some [refH1])
        (some { staged_transactions := some [stx3] })) = 1 ∧
    List.countP (fun e => e.hash == "h1")
      (processedTransactions (some "octw") (some [detailH1]) (some [refH1])
        (some { staged_transactions := some [stx3] })) ≤ 1 ∧
    ∀ e ∈ processedTransactions (some "octw") (some [detailH1]) (some [refH1])
        (some { staged_transactions := some [stx3] }),
      e.hash = "h1" → ∃ r ∈ [detailH1], ∃ p, r.data.parsed_tx = some p ∧
        r.hash = "h1" ∧ e = confirmedEntry "octw" [refH1] r.hash p) :=
  ⟨⟨by decide, by decide, by decide, by decide, by decide⟩,
    history_dedup_confirmed_precedence "octw" "h1" (by decide) [detailH1] [refH1]
      [stx3] (by decide) (by decide) (by decide) (by decide)⟩

/-- Witness for C5 at a concrete input: a failed address fetch whose
message contains "404" and two own pending entries `stx3`, `stx4`. -/
theorem history_404_returns_pending_witness :
    (jsIncludes "HTTP 404 not found" "404" = true ∧
      stx3.from_ = wOct.address ∧ stx4.from_ = wOct.address ∧
      stx3.hash ≠ "" ∧ stx4.hash ≠ "") ∧
    ((useTransactionHistory (some wOct) (some { staged_transactions := some [stx3, stx4] })
      (Except.error "HTTP 404 not found") (fun _ => none) false false).error = none ∧
    (useTransactionHistory (some wOct) (some { staged_transactions := some [stx3, stx4] })
      (Except.error "HTTP 404 not found") (fun _ => none) false false).isLoading = false ∧
    (useTransactionHistory (some wOct) (some { staged_transactions := some [stx3, stx4] })
      (Except.error "HTTP 404 not found") (fun _ => none) false false).history.Perm
      [stagedEntryTx wOct.address stx3, stagedEntryTx wOct.address stx4]) :=
  ⟨⟨by decide, by decide, by decide, by decide, by decide⟩,
    history_404_returns_pending wOct "HTTP 404 not found" stx3 stx4 (fun _ => none)
      false false (by decide) (by decide) (by decide) (by decide) (by decide) (by decide)⟩

/-- C8: amount normalization is representation independent — a dotted
decimal string parses as written, a plain integer string is divided by
1,000,000, so whenever an integer micro-unit string and a decimal string
denote the same value `n / 1,000,000` they normalize identically; in
particular "10500000" and "10.5" both normalize to 10.5. -/
theorem parseAmount_representation_independent :
    (∀ (n : ℕ) (s t : String),
      jsIncludes s "." = false → jsParseInt s = (n : ℚ) →
      jsIncludes t "." = true → jsParseFloat t = (n : ℚ) / 1000000 →
      parseAmount s = parseAmount t) ∧
    parseAmount "10500000" = 21 / 2 ∧ parseAmount "10.5" = 21 / 2 := by
  have hte : ∀ t : String, jsIncludes t "." = true → t ≠ "" := by
    intro t ht h
    subst h
    simp [jsIncludes, charSub, charPre] at ht
  refine ⟨?_, ?_, ?_⟩
  · intro n s t hs hsv ht htv
    have h2 : parseAmount t = (n : ℚ) / 1000000 := by
      rw [parseAmount, if_neg (hte t ht), ht]
      simpa using htv
    by_cases hse : s = ""
    · subst hse
      have hn0 : (n : ℚ) = 0 := by
        rw [← hsv]
        simp [jsParseInt, leadingDigits, digitsVal]
      have h1 : parseAmount "" = 0 := by
        rw [show parseAmount "" = jsParseInt "0" / 1000000 from rfl]
        simp [jsParseInt, leadingDigits, digitsVal]
      rw [h1, h2, hn0]
      norm_num
    · have h1 : parseAmount s = (n : ℚ) / 1000000 := by
        rw [parseAmount, if_neg hse, hs]
        simp [hsv]
      rw [h1, h2]
  · have h1 : parseAmount "10500000" = ((10500000 : ℕ) : ℚ) / 1000000 := rfl
    rw [h1]
    norm_num
  · have h2 : parseAmount "10.5" =
        ((10 : ℕ) : ℚ) + ((5 : ℕ) : ℚ) / (10 : ℚ) ^ (1 : ℕ) := rfl
    rw [h2]
    norm_num

/-- Witness for C8 at the concrete pair from the spec: the integer
micro-unit string "10500000" and the decimal string "10.5". -/
theorem parseAmount_representation_independent_witness :
    (jsIncludes "10500000" "." = false ∧ jsParseInt "10500000" = ((10500000 : ℕ) : ℚ) ∧
      jsIncludes "10.5" "." = true ∧
      jsParseFloat "10.5" = ((10500000 : ℕ) : ℚ) / 1000000) ∧
    parseAmount "10500000" = parseAmount "10.5" := by
  have ha : jsParseInt "10500000" = ((10500000 : ℕ) : ℚ) := by
    rw [show jsParseInt "10500000" = ((10500000 : ℕ) : ℚ) from rfl]
  have hb : jsParseFloat "10.5" = ((10500000 : ℕ) : ℚ) / 1000000 := by
    rw [show jsParseFloat "10.5" =
      ((10 : ℕ) : ℚ) + ((5 : ℕ) : ℚ) / (10 : ℚ) ^ (1 : ℕ) from rfl]
    norm_num
  exact ⟨⟨by decide, ha, by decide, hb⟩,
    parseAmount_representation_independent.1 10500000 "10500000" "10.5"
      (by decide) ha (by decide) hb⟩

theorem sendTransactionNet_submitted (env : SendEnv) (w : Wallet) (cn : Int)
    (p : SendTransactionParams) (stx : SignedTransaction) (resp : ProxyResponse) :
    (sendTransactionNet env w cn p stx resp).submitted = some stx := by
  cases resp <;> simp only [sendTransactionNet] <;> (repeat' split) <;>
    simp [sendSuccess, sendRejected]

theorem sendTransactionNet_wellformed (env : SendEnv) (w : Wallet) (cn : Int)
    (p : SendTransactionParams) (stx : SignedTransaction) (resp : ProxyResponse) :
    ((sendTransactionNet env w cn p stx resp).result.success = true ∧
      (sendTransactionNet env w cn p stx resp).result.txHash.isSome = true ∧
      (sendTransactionNet env w cn p stx resp).result.responseTime.isSome = true) ∨
    ((sendTransactionNet env w cn p stx resp).result.success = false ∧
      (sendTransactionNet env w cn p stx resp).result.error.isSome = true) := by
  cases resp <;> simp only [sendTransactionNet] <;> (repeat' split) <;>
    simp [sendSuccess, sendRejected]

theorem sendTransactionNet_error_not_balance (env : SendEnv) (w : Wallet) (cn : Int)
    (p : SendTransactionParams) (stx : SignedTransaction) (resp : ProxyResponse)
    (b a : ℚ) :
    (sendTransactionNet env w cn p stx resp).result.error ≠
      some (SendError.insufficientBalance b a) := by
  cases resp <;> simp only [sendTransactionNet] <;> (repeat' split) <;>
    simp [sendSuccess, sendRejected]

theorem sendTransaction_submitted_nonce (env : SendEnv) (w : Wallet) (b : ℚ)
    (pto : String) (amt : ℚ) (v : Int)
    (hw : env.wallet = some w) (hb : env.balance = some b)
    (hle : ¬ b < amt) (hv : v ≠ 0) :
    (sendTransaction env { to_ := pto, amount := amt, _nonce := some v }).submitted.map
      (fun stx => stx.tx.nonce) = some v := by
  simp only [sendTransaction, hw, hb]
  rw [if_neg hle, sendTransactionNet_submitted]
  simp [hv]

/-- C9: an explicit `_nonce = 0` is falsy under the truthiness test of
line 275, so the envelope falls back to `currentNonce + 1`, and since
`currentNonce = _nonce ?? nonce ?? 0 = 0` the submitted nonce is `1`; any
explicit `_nonce ≥ 1` is submitted verbatim. -/
theorem sendTransaction_nonce_zero_falls_back (env : SendEnv) (w : Wallet) (b : ℚ)
    (pto : String) (amt : ℚ)
    (hw : env.wallet = some w) (hb : env.balance = some b) (hle : ¬ b < amt) :
    ((sendTransaction env { to_ := pto, amount := amt, _nonce := some 0 }).submitted.map
      (fun stx => stx.tx.nonce) = some 1) ∧
    ∀ v : Int, 1 ≤ v →
      (sendTransaction env { to_ := pto, amount := amt, _nonce := some v }).submitted.map
        (fun stx => stx.tx.nonce) = some v := by
  constructor
  · simp only [sendTransaction, hw, hb]
    rw [if_neg hle, sendTransactionNet_submitted]
    simp
  · intro v hv
    exact sendTransaction_submitted_nonce env w b pto amt v hw hb hle (by omega)

/-- C10: with a connected wallet and a defined balance snapshot `b`, a
call fails with the insufficient-balance reason exactly when `b < amount`
(strict), and in that case no envelope is ever given to the network; an
amount equal to `b` passes the check, and every member of a list of
amounts that each fit `b` passes it individually, regardless of their
sum. -/
theorem sendTransaction_insufficient_balance_check (env : SendEnv) (w : Wallet) (b : ℚ)
    (hw : env.wallet = some w) (hb : env.balance = some b) :
    (∀ pto amt n,
      ((sendTransaction env { to_ := pto, amount := amt, _nonce := n }).result.error =
        some (SendError.insufficientBalance b amt) ↔ b < amt)) ∧
    (∀ pto amt n, b < amt →
      (sendTransaction env { to_ := pto, amount := amt, _nonce := n }).submitted = none) ∧
    (∀ pto amt n, ¬ b < amt →
      (sendTransaction env { to_ := pto, amount := amt, _nonce := n }).submitted.isSome
        = true) ∧
    (∀ pto n,
      (sendTransaction env { to_ := pto, amount := b, _nonce := n }).submitted.isSome
        = true) ∧
    (∀ pto n (amts : List ℚ), (∀ a ∈ amts, a ≤ b) → ∀ a ∈ amts,
      (sendTransaction env { to_ := pto, amount := a, _nonce := n }).submitted.isSome
        = true) := by
  have hpass : ∀ pto amt n, ¬ b < amt →
      (sendTransaction env { to_ := pto, amount := amt, _nonce := n }).submitted.isSome
        = true := by
    intro pto amt n hle
    simp only [sendTransaction, hw, hb]
    rw [if_neg hle, sendTransactionNet_submitted]
    rfl
  refine ⟨?_, ?_, hpass, ?_, ?_⟩
  · intro pto amt n
    constructor
    · intro he
      by_contra hnl
      simp only [sendTransaction, hw, hb] at he
      rw [if_neg hnl] at he
      exact sendTransactionNet_error_not_balance env w _ _ _ _ b amt he
    · intro hlt
      simp only [sendTransaction, hw, hb]
      rw [if_pos hlt]
  · intro pto amt n hlt
    simp only [sendTransaction, hw, hb]
    rw [if_pos hlt]
  · intro pto n
    exact hpass pto b n (lt_irrefl b)
  · intro pto n amts hall a ha
    exact hpass pto a n (not_lt.mpr (hall a ha))

/-- Witness for C9 at a concrete input: environment `wEnv`, amount 1. -/
theorem sendTransaction_nonce_zero_falls_back_witness :
    (wEnv.wallet = some wOct ∧ wEnv.balance = some 100 ∧ ¬ (100 : ℚ) < 1) ∧
    (((sendTransaction wEnv { to_ := "octr", amount := 1, _nonce := some 0 }).submitted.map
      (fun stx => stx.tx.nonce) = some 1) ∧
    ∀ v : Int, 1 ≤ v →
      (sendTransaction wEnv { to_ := "octr", amount := 1, _nonce := some v }).submitted.map
        (fun stx => stx.tx.nonce) = some v) :=
  ⟨⟨rfl, rfl, by norm_num⟩,
    sendTransaction_nonce_zero_falls_back wEnv wOct 100 "octr" 1 rfl rfl (by norm_num)⟩

/-- Witness for C10 at a concrete input: environment `wEnv` with balance
100. -/
theorem sendTransaction_insufficient_balance_check_witness :
    (wEnv.wallet = some wOct ∧ wEnv.balance = some 100) ∧
    (((sendTransaction wEnv { to_ := "octr", amount := 250, _nonce := none }).result.error =
        some (SendError.insufficientBalance 100 250) ↔ (100 : ℚ) < 250) ∧
      (sendTransaction wEnv { to_ := "octr", amount := 100, _nonce := none }).submitted.isSome
        = true ∧
      (∀ a ∈ ([60, 60, 60] : List ℚ),
        (sendTransaction wEnv { to_ := "octr", amount := a, _nonce := none }).submitted.isSome
          = true)) := by
  have h := sendTransaction_insufficient_balance_check wEnv wOct 100 rfl rfl
  exact ⟨⟨rfl, rfl⟩, h.1 "octr" 250 none, h.2.2.2.1 "octr" none,
    h.2.2.2.2 "octr" none [60, 60, 60] (by intro a ha; fin_cases ha <;> norm_num)⟩

/-- C2 (code bug): at the concrete input `_nonce = 5` (environment
`wEnv`, amount 1, network accepts with hash "hx") the submitted envelope
carries nonce 5, yet the synthesized pending-pool entry carries nonce
`currentNonce + 1 = 6`: the optimistic entry does not reproduce the
submitted nonce whenever a truthy `_nonce` override is used — which the
batch scheduler always does.  The other claimed fields (`from`, `to`,
`hash`, prepending with `revalidate: false`) do behave as described. -/
theorem sendTransaction_staged_nonce_mismatch :
    (sendTransaction wEnv { to_ := "octr", amount := 1, _nonce := some 5 }).result.success
      = true ∧
    (sendTransaction wEnv { to_ := "octr", amount := 1, _nonce := some 5 }).submitted.map
      (fun stx => stx.tx.nonce) = some 5 ∧
    (sendTransaction wEnv { to_ := "octr", amount := 1, _nonce := some 5 }).staged.map
      (fun e => e.nonce) = some 6 ∧
    (sendTransaction wEnv { to_ := "octr", amount := 1, _nonce := some 5 }).staged.map
      (fun e => e.from_) = some wOct.address ∧
    (sendTransaction wEnv { to_ := "octr", amount := 1, _nonce := some 5 }).staged.map
      (fun e => e.to_) = some "octr" ∧
    (sendTransaction wEnv { to_ := "octr", amount := 1, _nonce := some 5 }).staged.map
      (fun e => e.hash) = some "hx" ∧
    (sendTransaction wEnv { to_ := "octr", amount := 1, _nonce := some 5 }).stagedRevalidate
      = some false ∧
    (∀ cur : Option StagingData, (stagingMutateUpdater stx3 cur).staged_transactions =
      some (stx3 :: (cur.bind (·.staged_transactions)).getD [])) := by
  have hlt : ¬ (100 : ℚ) < 1 := by norm_num
  refine ⟨?_, ?_, ?_, ?_, ?_, ?_, ?_, fun cur => rfl⟩ <;>
    simp only [sendTransaction, wEnv, Option.getD, if_neg hlt] <;>
    simp [sendTransactionNet, sendSuccess, newStagedTx, wOct]

theorem runItemsFrom_eq_mapIdx (env : SendEnv) (s : Int) :
    ∀ (l : List Recipient) (i : Nat),
    runItemsFrom env s i l = l.mapIdx (fun j r =>
      (r, sendTransaction env
        { to_ := r.address, amount := jsParseFloat r.amount,
          _nonce := some (s + ((i + j : Nat) : Int)) })) := by
  intro l
  induction l with
  | nil => intro i; rfl
  | cons r rs ih =>
    intro i
    rw [List.mapIdx_cons]
    simp only [runItemsFrom]
    refine congrArg₂ List.cons ?_ ?_
    · have e0 : i + 0 = i := by omega
      rw [e0]
    · rw [ih (i + 1)]
      refine congrArg (fun f => List.mapIdx f rs) ?_
      funext j r0
      have e0 : (i + 1) + j = i + (j + 1) := by omega
      rw [e0]

theorem runItemsFrom_append (env : SendEnv) (s : Int) :
    ∀ (a b : List Recipient) (i : Nat),
    runItemsFrom env s i (a ++ b) =
      runItemsFrom env s i a ++ runItemsFrom env s (i + a.length) b := by
  intro a
  induction a with
  | nil => intro b i; simp [runItemsFrom]
  | cons r rs ih =>
    intro b i
    simp only [List.cons_append, runItemsFrom, List.length_cons, List.append_eq]
    refine congrArg₂ List.cons rfl ?_
    rw [ih b (i + 1)]
    have e0 : (i + 1) + rs.length = i + (rs.length + 1) := by omega
    rw [e0]

theorem runBatch_eq_runItems (env : SendEnv) (s : Int) (ofs : Nat)
    (batch : List Recipient) :
    runBatch env s ofs batch = runItemsFrom env s ofs batch :=
  (runItemsFrom_eq_mapIdx env s batch ofs).symm

theorem runBatches_chunk5 (env : SendEnv) (s : Int) :
    ∀ (n : Nat) (l : List Recipient), l.length ≤ n → ∀ ofs : Nat,
    runBatches env s (chunk5 l) ofs = runItemsFrom env s ofs l := by
  intro n
  induction n with
  | zero =>
    intro l hl ofs
    have h0 : l = [] := List.eq_nil_of_length_eq_zero (Nat.le_zero.mp hl)
    subst h0
    rfl
  | succ n ih =>
    intro l hl ofs
    match l with
    | [] => rfl
    | [a] => simp [chunk5, runBatches, runBatch_eq_runItems, runItemsFrom]
    | [a, b] => simp [chunk5, runBatches, runBatch_eq_runItems, runItemsFrom]
    | [a, b, c] => simp [chunk5, runBatches, runBatch_eq_runItems, runItemsFrom]
    | [a, b, c, d] => simp [chunk5, runBatches, runBatch_eq_runItems, runItemsFrom]
    | a :: b :: c :: d :: e :: rest =>
      have hlen : rest.length ≤ n := by
        simp only [List.length_cons] at hl
        omega
      calc runBatches env s (chunk5 (a :: b :: c :: d :: e :: rest)) ofs
          = runBatch env s ofs [a, b, c, d, e] ++
              runBatches env s (chunk5 rest) (ofs + 5) := by
            simp [chunk5, runBatches]
        _ = runItemsFrom env s ofs [a, b, c, d, e] ++
              runItemsFrom env s (ofs + 5) rest := by
            rw [runBatch_eq_runItems, ih rest hlen (ofs + 5)]
        _ = runItemsFrom env s ofs ([a, b, c, d, e] ++ rest) := by
            rw [runItemsFrom_append]
            norm_num
        _ = runItemsFrom env s ofs (a :: b :: c :: d :: e :: rest) := rfl

theorem handleConfirm_eq_runItems (env : SendEnv) (recipients : List Recipient) :
    handleConfirm env recipients = runItemsFrom env (env.hookNonce + 1) 0 recipients :=
  runBatches_chunk5 env (env.hookNonce + 1) recipients.length recipients (le_refl _) 0

theorem runItemsFrom_map_fst (env : SendEnv) (s : Int) :
    ∀ (l : List Recipient) (i : Nat), (runItemsFrom env s i l).map Prod.fst = l := by
  intro l
  induction l with
  | nil => intro i; rfl
  | cons r rs ih => intro i; simp [runItemsFrom, ih (i + 1)]

theorem runItemsFrom_length (env : SendEnv) (s : Int) :
    ∀ (l : List Recipient) (i : Nat), (runItemsFrom env s i l).length = l.length := by
  intro l
  induction l with
  | nil => intro i; rfl
  | cons r rs ih => intro i; simp [runItemsFrom, ih (i + 1)]

theorem runItemsFrom_nonces (env : SendEnv) (w : Wallet) (b : ℚ) (s : Int)
    (hw : env.wallet = some w) (hb : env.balance = some b) (hs : 0 < s) :
    ∀ (l : List Recipient) (i : Nat), (∀ r ∈ l, jsParseFloat r.amount ≤ b) →
    (runItemsFrom env s i l).map (fun o => o.2.submitted.map (fun stx => stx.tx.nonce)) =
      (List.range l.length).map (fun (j : Nat) => some (s + ((i + j : Nat) : Int))) := by
  intro l
  induction l with
  | nil => intro i h; rfl
  | cons r rs ih =>
    intro i h
    have hhead := sendTransaction_submitted_nonce env w b r.address
      (jsParseFloat r.amount) (s + (i : Int)) hw hb
      (not_lt.mpr (h r (List.mem_cons_self _ _))) (by omega)
    simp only [runItemsFrom, List.map_cons, List.length_cons, List.range_succ_eq_map,
      List.map_map]
    refine congrArg₂ List.cons ?_ ?_
    · rw [hhead]
      have e0 : i + 0 = i := by omega
      rw [e0]
    · rw [ih (i + 1) (fun r0 hr0 => h r0 (List.mem_cons_of_mem _ hr0))]
      refine congrArg (fun f => List.map f (List.range rs.length)) ?_
      funext j
      simp only [Function.comp_apply, Nat.succ_eq_add_one]
      have e0 : (i + 1) + j = i + (j + 1) := by omega
      rw [e0]

/-- C1: under a connected wallet, a defined balance that covers every
individual amount, and a non-negative base nonce, the envelopes submitted
by one `handleConfirm` pass over N recipients carry exactly the nonces
`baseNonce + 1 + i` for `i = 0 … N-1` in input order — regardless of the
chunking into batches of five — and those N nonces are pairwise
distinct. -/
theorem handleConfirm_nonce_preassignment (env : SendEnv) (w : Wallet) (b : ℚ)
    (recipients : List Recipient)
    (hw : env.wallet = some w) (hb : env.balance = some b)
    (h0 : 0 ≤ env.hookNonce)
    (hamt : ∀ r ∈ recipients, jsParseFloat r.amount ≤ b) :
    ((handleConfirm env recipients).map
        (fun o => o.2.submitted.map (fun stx => stx.tx.nonce)) =
      (List.range recipients.length).map
        (fun (i : Nat) => some (env.hookNonce + 1 + (i : Int)))) ∧
    ((List.range recipients.length).map
        (fun (i : Nat) => env.hookNonce + 1 + (i : Int))).Nodup := by
  constructor
  · rw [handleConfirm_eq_runItems]
    rw [runItemsFrom_nonces env w b (env.hookNonce + 1) hw hb (by omega)
      recipients 0 hamt]
    refine congrArg (fun f => List.map f (List.range recipients.length)) ?_
    funext j
    have e0 : 0 + j = j := by omega
    rw [e0]
  · refine List.Nodup.map ?_ (List.nodup_range _)
    intro a b2 hab
    simp only at hab
    omega

/-- C6: first, `sendTransaction` always resolves to exactly one
well-tagged result — success with a hash and a response time, or failure
with a reason — for every environment and input (the model is a total
function, and every network shape including a thrown exception lands in
one of the return sites); second, `handleConfirm` produces exactly one
outcome per recipient, in original input order, each outcome depending
only on its own recipient and pre-assigned nonce, so one failure cannot
remove or reorder its siblings. -/
theorem sendTransaction_one_outcome_each :
    (∀ (env : SendEnv) (p : SendTransactionParams),
      ((sendTransaction env p).result.success = true ∧
        (sendTransaction env p).result.txHash.isSome = true ∧
        (sendTransaction env p).result.responseTime.isSome = true) ∨
      ((sendTransaction env p).result.success = false ∧
        (sendTransaction env p).result.error.isSome = true)) ∧
    (∀ (env : SendEnv) (recipients : List Recipient),
      handleConfirm env recipients = recipients.mapIdx (fun i r =>
        (r, sendTransaction env
          { to_ := r.address, amount := jsParseFloat r.amount,
            _nonce := some ((env.hookNonce + 1) + (i : Int)) })) ∧
      (handleConfirm env recipients).map Prod.fst = recipients ∧
      (handleConfirm env recipients).length = recipients.length) := by
  constructor
  · intro env p
    cases hw : env.wallet with
    | none => right; simp [sendTransaction, hw]
    | some w =>
      cases hb : env.balance with
      | none => right; simp [sendTransaction, hw, hb]
      | some b =>
        by_cases hba : b < p.amount
        · right; simp [sendTransaction, hw, hb, hba]
        · have hnet := sendTransactionNet_wellformed env w (p._nonce.getD env.hookNonce) p
          simp only [sendTransaction, hw, hb, if_neg hba]
          exact hnet _ _
  · intro env recipients
    refine ⟨?_, ?_, ?_⟩
    · rw [handleConfirm_eq_runItems, runItemsFrom_eq_mapIdx]
      refine congrArg (fun f => List.mapIdx f recipients) ?_
      funext j r
      have e0 : 0 + j = j := by omega
      rw [e0]
    · rw [handleConfirm_eq_runItems, runItemsFrom_map_fst]
    · rw [handleConfirm_eq_runItems, runItemsFrom_length]

/-- Witness for C1 at a concrete input: environment `wEnv` (wallet
connected, balance 100, hook nonce 10) and seven single-unit recipients,
which the scheduler splits into chunks of five and two. -/
theorem handleConfirm_nonce_preassignment_witness :
    (wEnv.wallet = some wOct ∧ wEnv.balance = some 100 ∧ 0 ≤ wEnv.hookNonce ∧
      ∀ r ∈ List.replicate 7 rcpt1, jsParseFloat r.amount ≤ 100) ∧
    (((handleConfirm wEnv (List.replicate 7 rcpt1)).map
        (fun o => o.2.submitted.map (fun stx => stx.tx.nonce)) =
      (List.range (List.replicate 7 rcpt1).length).map
        (fun (i : Nat) => some (wEnv.hookNonce + 1 + (i : Int)))) ∧
    ((List.range (List.replicate 7 rcpt1).length).map
        (fun (i : Nat) => wEnv.hookNonce + 1 + (i : Int))).Nodup) := by
  have hamt : ∀ r ∈ List.replicate 7 rcpt1, jsParseFloat r.amount ≤ 100 := by
    intro r hr
    rw [List.eq_of_mem_replicate hr]
    rw [show jsParseFloat rcpt1.amount = ((1 : ℕ) : ℚ) from rfl]
    norm_num
  exact ⟨⟨rfl, rfl, by decide, hamt⟩,
    handleConfirm_nonce_preassignment wEnv wOct 100 (List.replicate 7 rcpt1)
      rfl rfl (by decide) hamt⟩
